import Mathlib

/-!
Verification of the record-sharding, encoding and collation core of the
deepnog repository (file src/tool/dataset.py), as a shallow embedding.

Python machine integers are unbounded, so `Nat` models the non-negative
integers used here (positions, counts, vocabulary codes).  A Python
function that may raise models as `Except PyError _`; a raised exception
is the corresponding `PyError` constructor.  Biopython record streams
(the generators returned by `Bio.SeqIO.parse`) are modelled as the list
of records not yet consumed; mutation of a shared generator is modelled
by threading this list explicitly, so aliasing of one generator by
several consumers is expressed by passing the same list onward.
-/

/-- Python exception classes that the embedded code can raise, plus the
exception classes named by the specification (`ConfigurationError`,
`UnknownSymbolError`, `NotFoundError`) so that claims about them can be
stated; the source never constructs those three. -/
inductive PyError where
  | keyError (c : Char)
  | valueError (msg : String)
  | nameError (missing : String)
  | indexError
  | notImplementedError (msg : String)
  | stopIteration
  | configurationError
  | unknownSymbolError (c : Char) (position : Nat)
  | notFoundError
deriving Repr, DecidableEq

/-- One parsed sequence record as produced by `Bio.SeqIO.parse`: its native
id, its symbol string, and the alphabet object attached to its `seq`. -/
structure SeqRecord where
  id : String
  seq : List Char
  alphabet : List Char
deriving Repr, DecidableEq

/-- The namedtuple `sequence(id, string, encoded)` built by
`ProteinIterator.__next__`. -/
structure Sequence where
  id : String
  string : String
  encoded : List Nat
deriving Repr, DecidableEq

/-- The namedtuple `collated_sequences(sequences, ids)` returned by
`collate_sequences`.  The collated tensor is a matrix of naturals. -/
structure CollatedSequences where
  sequences : List (List Nat)
  ids : List String
deriving Repr, DecidableEq

/-- The letters of `Bio.Alphabet.IUPAC.ExtendedIUPACProtein`. -/
def extendedIUPACLetters : List Char := "ACDEFGHIKLMNPQRSTVWYBXZJUO".data

/-- Python dict assignment `d[k] = v`: overwrite the value when the key is
present, else append the new key at the end. -/
def dictInsert (d : List (Char × Nat)) (k : Char) (v : Nat) : List (Char × Nat) :=
  if d.any (fun p => p.1 == k) then
    d.map (fun p => if p.1 == k then (k, v) else p)
  else
    d ++ [(k, v)]

/-- The dict built by the loop body of `gen_amino_acid_vocab`: for the
letter at 0-based position `i`, both its upper- and lower-case forms map
to `i + 1`. -/
def genVocab (letters : List Char) : List (Char × Nat) :=
  letters.enum.foldl
    (fun d p => dictInsert (dictInsert d p.2.toUpper (p.1 + 1)) p.2.toLower (p.1 + 1))
    []

/-- `AminoAcidWordEmbedding.gen_amino_acid_vocab(alphabet)` on an alphabet
with the given letters.  Its Python body contains no `raise`, so it always
returns the dict built by `genVocab`. -/
def gen_amino_acid_vocab (letters : List Char) : Except PyError (List (Char × Nat)) :=
  .ok (genVocab letters)

/-- Python dict lookup `d[c]`: the stored value, or a `KeyError` naming the
missing key. -/
def pyDictGet (d : List (Char × Nat)) (c : Char) : Except PyError Nat :=
  match d.lookup c with
  | some v => .ok v
  | none => .error (.keyError c)

/-- The list comprehension `[vocab[c] for c in next_seq.seq]` from
`ProteinIterator.__next__`: left to right, failing at the first character
absent from the dict. -/
def encodeSeq (d : List (Char × Nat)) : List Char → Except PyError (List Nat)
  | [] => .ok []
  | c :: cs =>
    match d.lookup c with
    | some v => (encodeSeq d cs).map (fun rest => v :: rest)
    | none => .error (.keyError c)

/-- The name referenced by the `n is None` branch of `consume`; the module
only runs `from collections import namedtuple`, so the bare name
`collections` is unbound there. -/
def collectionsModuleName : String := "collections"

/-- `consume(iterator, n)` from the source: with `n` an integer it advances
the stream `n` steps (dropping fewer when the stream is shorter); with
`n = None` it executes `collections.deque(iterator, maxlen=0)`, which
raises `NameError` because the name `collections` is not defined in the
module. -/
def consume (iterator : List SeqRecord) (n : Option Nat) :
    Except PyError (List SeqRecord) :=
  match n with
  | none => .error (.nameError collectionsModuleName)
  | some k => .ok (iterator.drop k)

/-- The per-iterator state of `ProteinIterator`: `start = worker_id`,
`step = num_workers - 1`, and the position bookkeeping `pos` (`None`
until the first `__next__`).  The wrapped Biopython stream is passed
separately to each operation, because it may be shared. -/
structure PIter where
  start : Nat
  pos : Option Nat
  step : Nat
deriving Repr, DecidableEq

/-- `ProteinIterator.__init__(iterator, num_workers, worker_id)` (the state
other than the wrapped stream).  `num_workers ≥ 1` in every use below, so
`Nat` subtraction agrees with Python's `num_workers - 1`. -/
def PIter.init (num_workers worker_id : Nat) : PIter :=
  { start := worker_id, pos := none, step := num_workers - 1 }

/-- Lines 162-169 of `ProteinIterator.__next__`: fetch `next(self.iterator)`
(raising `StopIteration` on an empty stream), build the vocabulary from the
fetched record's alphabet, encode, and return the namedtuple whose id is
the new position, an underscore, and the native id. -/
def PIter.fetch (it : PIter) (stream : List SeqRecord) (newPos : Nat) :
    Except PyError (Sequence × PIter × List SeqRecord) :=
  match stream with
  | [] => .error .stopIteration
  | next_seq :: rest =>
    match gen_amino_acid_vocab next_seq.alphabet with
    | .error e => .error e
    | .ok vocab =>
      match encodeSeq vocab next_seq.seq with
      | .error e => .error e
      | .ok encoded =>
        .ok (⟨Nat.repr newPos ++ "_" ++ next_seq.id, String.mk next_seq.seq, encoded⟩,
             { it with pos := some newPos }, rest)

/-- `ProteinIterator.__next__`: when already positioned, skip `step` records
and advance the position by `step + 1`; on the first call skip `start`
records and set the position to `start + 1`; then fetch, encode and tag
(see `PIter.fetch`).  Returns the produced namedtuple together with the
updated iterator state and the advanced stream. -/
def PIter.next (it : PIter) (stream : List SeqRecord) :
    Except PyError (Sequence × PIter × List SeqRecord) :=
  match it.pos with
  | some p =>
    match consume stream (some it.step) with
    | .error e => .error e
    | .ok stream1 => it.fetch stream1 (p + it.step + 1)
  | none =>
    match consume stream (some it.start) with
    | .error e => .error e
    | .ok stream1 => it.fetch stream1 (it.start + 1)

/-- Drain an iterator: repeatedly call `__next__`, collecting the produced
records until any exception ends the iteration (`StopIteration` is the
normal end).  `fuel` bounds the number of calls; every use below supplies
fuel at least the stream length plus one, which drains the stream. -/
def runIter : Nat → PIter → List SeqRecord → List Sequence
  | 0, _, _ => []
  | fuel + 1, it, stream =>
    match it.next stream with
    | .error _ => []
    | .ok (s, it', stream') => s :: runIter fuel it' stream'

/-- The full output of the worker with id `w` among `N` workers, iterating
its own independent copy of the record stream (as the spec's sharding
property supposes). -/
def emitted (records : List SeqRecord) (N w : Nat) : List Sequence :=
  runIter (records.length + 1) (PIter.init N w) records

/-- The file system visible to `ProteinDataset.__init__`: whether a path is
a regular existing file, and the records that `Bio.SeqIO.parse` yields for
a given path and format. -/
structure FileSystem where
  isFile : String → Bool
  parseRecords : String → String → List SeqRecord

/-- The message of the `ValueError` raised by `ProteinDataset.__init__`. -/
def datasetFileMsg : String := "Given file does not exist or is not a file."

/-- The state of a constructed `ProteinDataset`: the single Biopython
stream `self.iter` created at construction time. -/
structure PDState where
  iter : List SeqRecord
deriving Repr, DecidableEq

/-- `ProteinDataset.__init__(file, f_format, max_length, zero_padding)`:
when the path is a regular file, store one `SeqIO.parse` stream whose
records carry the `ExtendedIUPACProtein` alphabet; otherwise raise
`ValueError`.  The parameters `max_length` and `zero_padding` appear in
the signature and are never read. -/
def ProteinDataset.init (fs : FileSystem) (file : String) (f_format : String)
    (max_length : Option Nat) (zero_padding : Bool) : Except PyError PDState :=
  if fs.isFile file then
    .ok ⟨(fs.parseRecords file f_format).map
          (fun r => { r with alphabet := extendedIUPACLetters })⟩
  else
    .error (.valueError datasetFileMsg)

/-- `ProteinDataset.__iter__`: build a `ProteinIterator` over the dataset's
single stored stream, with worker coordinates from
`torch.utils.data.get_worker_info()` when inside a worker (modelled as
`some (num_workers, worker_id)`) and the constructor defaults otherwise.
The returned iterator state wraps `self.iter`, the same stream object for
every call. -/
def ProteinDataset.iterOf (workerInfo : Option (Nat × Nat)) : PIter :=
  match workerInfo with
  | none => { start := 0, pos := none, step := 0 }
  | some nw_wid => { start := nw_wid.2, pos := none, step := nw_wid.1 - 1 }

/-- The running maximum computed by the first loop of `collate_sequences`
(`if sequence_len > max_len`, starting from 0). -/
def maxLenOf (batch : List Sequence) : Nat :=
  batch.foldl (fun m s => max m s.encoded.length) 0

/-- `torch.utils.data.dataloader.default_collate` applied to the 2-D numeric
array built by `collate_sequences`: its first line reads `batch[0]`, an
`IndexError` when the array has no rows; otherwise it returns a tensor
with the same contents. -/
def default_collate (m : List (List Nat)) : Except PyError (List (List Nat)) :=
  match m with
  | [] => .error .indexError
  | row :: rows => .ok (row :: rows)

/-- The message of the `NotImplementedError` in `collate_sequences`. -/
def collateNeedsPaddingMsg : String := "Batching requires zero padding!"

/-- `collate_sequences(batch, zero_padding)` on a list argument (a non-list
argument is first wrapped into a one-element list, reducing to this case):
compute the maximum encoded length, build the zero matrix with each row's
prefix overwritten by that record's encoding, pass it through
`default_collate`, and pair it with the ids in batch order; without zero
padding raise `NotImplementedError`. -/
def collate_sequences (batch : List Sequence) (zero_padding : Bool) :
    Except PyError CollatedSequences :=
  let max_len := maxLenOf batch
  if zero_padding then
    match default_collate
        (batch.map (fun s => s.encoded ++ List.replicate (max_len - s.encoded.length) 0)) with
    | .error e => .error e
    | .ok sequences => .ok ⟨sequences, batch.map (fun s => s.id)⟩
  else
    .error (.notImplementedError collateNeedsPaddingMsg)

/-- Placeholder record used as the default of `List.getD`; every use below
is at an in-range index, where the default is irrelevant. -/
def dfltRec : SeqRecord := { id := "", seq := [], alphabet := [] }

/-- Placeholder `Sequence` used as the default of `List.getD`; every use
below is at an in-range index. -/
def dfltSeq : Sequence := { id := "", string := "", encoded := [] }

/-- The encoding of a record whose characters are all in its alphabet's
vocabulary (the value `encodeSeq` returns for it). -/
def encodedOf (r : SeqRecord) : List Nat :=
  r.seq.map (fun c => ((genVocab r.alphabet).lookup c).getD 0)

/-- The namedtuple that `ProteinIterator.__next__` builds for the record
`r` sitting at 0-based unsharded index `i` (1-based position `i + 1`). -/
def mkSeq (i : Nat) (r : SeqRecord) : Sequence :=
  { id := Nat.repr (i + 1) ++ "_" ++ r.id,
    string := String.mk r.seq,
    encoded := encodedOf r }

/-- Every character of the record is in the vocabulary generated from its
alphabet, so encoding it succeeds. -/
def encodableRec (r : SeqRecord) : Bool :=
  r.seq.all (fun c => ((genVocab r.alphabet).lookup c).isSome)

/-- Every record of the list is encodable. -/
def allEncodable (records : List SeqRecord) : Bool :=
  records.all encodableRec

/-- The 0-based unsharded indices that the shard-assignment rule of the
spec gives to worker `w` of `N`: those `i < M` with `i % N = w`
(equivalently, 1-based positions `p` with `(p - 1) % N = w`). -/
def shardIdx (M N w : Nat) : List Nat :=
  (List.range M).filter (fun i => decide (i % N = w))

/-- The 0-based indices a positioned iterator at bookkeeping position `p`
still emits: `p + N - 1`, `p + 2 * N - 1`, and so on, below `M`. -/
def strideIdx (M N p : Nat) : List Nat :=
  (List.range M).filter (fun i => decide (p ≤ i ∧ (i + 1 - p) % N = 0))

/-- The output that the shard-assignment rule predicts for worker `w` of
`N` over the record list. -/
def workerOutput (records : List SeqRecord) (N w : Nat) : List Sequence :=
  (shardIdx records.length N w).map (fun i => mkSeq i (records.getD i dfltRec))

/-- All records emitted across the `N` workers, each draining its own
independent copy of the source. -/
def unionEmitted (records : List SeqRecord) (N : Nat) : List Sequence :=
  ((List.range N).map (fun w => emitted records N w)).flatten

/-- Whether a computation raised `NameError`. -/
def resultIsNameError {α : Type} : Except PyError α → Bool
  | .error (.nameError _) => true
  | _ => false

/-- Whether a computation raised the spec's `UnknownSymbolError`. -/
def resultIsUnknownSymbolError {α : Type} : Except PyError α → Bool
  | .error (.unknownSymbolError _ _) => true
  | _ => false

/-- Whether a computation raised the spec's `ConfigurationError`. -/
def resultIsConfigurationError {α : Type} : Except PyError α → Bool
  | .error .configurationError => true
  | _ => false

/-- Whether a computation raised the spec's `NotFoundError`. -/
def resultIsNotFoundError {α : Type} : Except PyError α → Bool
  | .error .notFoundError => true
  | _ => false

/-- A two-letter alphabet used by the concrete witness records below. -/
def alphaW : List Char := [ 'A', 'C']

/-- Three concrete records over `alphaW`, all encodable. -/
def recsW1 : List SeqRecord :=
  [{ id := "r1", seq := [ 'A'], alphabet := alphaW },
   { id := "r2", seq := [ 'C'], alphabet := alphaW },
   { id := "r3", seq := [ 'a'], alphabet := alphaW }]

/-- Two concrete records over `alphaW`, all encodable. -/
def recsW2 : List SeqRecord :=
  [{ id := "a", seq := [ 'A'], alphabet := alphaW },
   { id := "b", seq := [ 'C', 'c'], alphabet := alphaW }]

/-- A file system on which every path is a regular file holding two
records with native ids `a` and `b`. -/
def fsTwoRecords : FileSystem :=
  { isFile := fun _ => true,
    parseRecords := fun _ _ =>
      [{ id := "a", seq := [ 'A'], alphabet := [] },
       { id := "b", seq := [ 'A'], alphabet := [] }] }

/-- A file system on which no path is a regular file. -/
def fsMissing : FileSystem :=
  { isFile := fun _ => false, parseRecords := fun _ _ => [] }

/-- The ids of the first records delivered by two iterators obtained in
turn from one `ProteinDataset` over `fsTwoRecords`: construct the dataset,
pull one record through a first `__iter__` result, then pull one record
through a second, later `__iter__` result of the same dataset (whose
wrapped stream is the same `self.iter`, already advanced). -/
def c3FirstIds : Option String × Option String :=
  match ProteinDataset.init fsTwoRecords "queries.fasta" "fasta" none true with
  | .error _ => (none, none)
  | .ok ds =>
    match PIter.next (ProteinDataset.iterOf none) ds.iter with
    | .error _ => (none, none)
    | .ok t1 =>
      match PIter.next (ProteinDataset.iterOf none) t1.2.2 with
      | .error _ => (some t1.1.id, none)
      | .ok t2 => (some t1.1.id, some t2.1.id)

/-- A concrete encodable record used in witnesses. -/
def recA : SeqRecord := { id := "a", seq := [ 'A'], alphabet := alphaW }

/-- Another concrete encodable record used in witnesses. -/
def recB : SeqRecord := { id := "b", seq := [ 'C', 'c'], alphabet := alphaW }

/-- The concrete batch of the specification's collation example. -/
def batchW : List Sequence :=
  [{ id := "id1", string := "", encoded := [1, 2, 3] },
   { id := "id2", string := "", encoded := [4, 5] }]

/-- The dataset state a `ProteinDataset` over `fsTwoRecords` holds. -/
def pdStateW : PDState :=
  { iter := (fsTwoRecords.parseRecords "queries.fasta" "fasta").map
      (fun r => { r with alphabet := extendedIUPACLetters }) }

/-- Encoding succeeds on a string all of whose characters are in the dict,
and returns exactly the looked-up codes. -/
theorem encodeSeq_all_ok (d : List (Char × Nat)) (s : List Char)
    (h : s.all (fun c => (d.lookup c).isSome) = true) :
    encodeSeq d s = .ok (s.map (fun c => ((d.lookup c).getD 0))) := by
  induction s with
  | nil => rfl
  | cons c cs ih =>
    rw [List.all_cons, Bool.and_eq_true] at h
    obtain ⟨v, hv⟩ := Option.isSome_iff_exists.mp h.1
    simp only [encodeSeq, hv, ih h.2, List.map_cons, Except.map, Option.getD_some]

/-- A fetch from a non-empty stream whose head is encodable produces the
tagged namedtuple of the head, positions the iterator at `newPos`, and
leaves the tail of the stream. -/
theorem fetch_ok (it : PIter) (r : SeqRecord) (rest : List SeqRecord) (newPos : Nat)
    (h : encodableRec r = true) :
    it.fetch (r :: rest) newPos
      = .ok (⟨Nat.repr newPos ++ "_" ++ r.id, String.mk r.seq, encodedOf r⟩,
             { it with pos := some newPos }, rest) := by
  have henc := encodeSeq_all_ok (genVocab r.alphabet) r.seq h
  simp only [PIter.fetch, gen_amino_acid_vocab, henc, encodedOf]

/-- The fold computing `max_len` never goes below its initial value. -/
theorem foldl_max_le_init (l : List Sequence) :
    ∀ a : Nat, a ≤ l.foldl (fun m t => max m t.encoded.length) a := by
  induction l with
  | nil => intro a; simp
  | cons t l ih =>
    intro a
    exact le_trans (le_max_left a t.encoded.length) (ih (max a t.encoded.length))

/-- Every member's encoded length is bounded by the fold computing
`max_len`, whatever the initial value. -/
theorem mem_le_foldl_max (l : List Sequence) (s : Sequence) (h : s ∈ l) :
    ∀ a : Nat, s.encoded.length ≤ l.foldl (fun m t => max m t.encoded.length) a := by
  induction l with
  | nil => cases h
  | cons t l ih =>
    intro a
    rcases List.mem_cons.mp h with h' | h'
    · subst h'
      exact le_trans (le_max_right a s.encoded.length)
        (foldl_max_le_init l (max a s.encoded.length))
    · rw [List.foldl_cons]
      exact ih h' (max a t.encoded.length)

/-- Every record's encoded length is at most the batch maximum. -/
theorem le_maxLenOf (batch : List Sequence) (s : Sequence) (h : s ∈ batch) :
    s.encoded.length ≤ maxLenOf batch :=
  mem_le_foldl_max batch s h 0

/-- Reading anywhere in a replicated zero block yields zero. -/
theorem getD_replicate_zero (k t : Nat) : (List.replicate k (0 : Nat)).getD t 0 = 0 := by
  induction k generalizing t with
  | zero => simp [List.getD]
  | succ n ih =>
    cases t with
    | zero => rfl
    | succ t' => simp [List.replicate_succ, List.getD_cons_succ, ih t']

/-- Counting in a filtered list: the full count when the element passes the
predicate, zero otherwise. -/
theorem count_filter_ite (a : Nat) (p : Nat → Bool) (l : List Nat) :
    (l.filter p).count a = if p a = true then l.count a else 0 := by
  by_cases h : p a = true
  · rw [if_pos h, List.count_filter h]
  · rw [if_neg h]
    exact List.count_eq_zero.mpr (fun hmem => h (List.of_mem_filter hmem))

/-- Summing an indicator over `range N` collapses to the single term at the
tested value when it lies below `N`. -/
theorem sum_indicator_range (N k c : Nat) :
    ((List.range N).map (fun w => if k = w then c else 0)).sum
      = if k < N then c else 0 := by
  induction N with
  | zero => simp
  | succ n ih =>
    rw [List.range_succ, List.map_append, List.sum_append, ih]
    by_cases h : k = n
    · subst h
      simp [Nat.lt_irrefl, Nat.lt_succ_self]
    · by_cases h2 : k < n
      · simp [h, h2, Nat.lt_succ_of_lt h2]
      · have h3 : ¬ k < n + 1 := by omega
        simp [h, h2, h3]

/-- Congruence modulo `N` expressed through the subtracted remainder. -/
theorem mod_eq_iff_sub_mod (M N w : Nat) (hwN : w < N) (hwM : w ≤ M) :
    M % N = w ↔ (M - w) % N = 0 := by
  constructor
  · intro h
    have hd : N * (M / N) + M % N = M := Nat.div_add_mod M N
    have : M - w = N * (M / N) := by omega
    rw [this]
    exact Nat.mul_mod_right N (M / N)
  · intro h
    obtain ⟨q, hq⟩ := Nat.dvd_of_mod_eq_zero h
    have hM : M = N * q + w := by omega
    rw [hM, Nat.add_comm, Nat.add_mul_mod_self_left]
    exact Nat.mod_eq_of_lt hwN

/-- Below the next stride hit there is nothing left for a positioned
iterator to emit. -/
theorem strideIdx_nil (M N p : Nat) (hN : 1 ≤ N) (hM : M ≤ p + N - 1) :
    strideIdx M N p = [] := by
  apply List.filter_eq_nil_iff.mpr
  intro i hi
  rw [List.mem_range] at hi
  simp only [decide_eq_true_eq]
  rintro ⟨h1, h2⟩
  have hlt : i + 1 - p < N := by omega
  rw [Nat.mod_eq_of_lt hlt] at h2
  omega


/-- Splitting a decidable filter of `range (m + 1)` at its last element. -/
theorem filter_range_succ (q : Nat → Prop) [DecidablePred q] (m : Nat) :
    (List.range (m + 1)).filter (fun i => decide (q i))
      = (List.range m).filter (fun i => decide (q i)) ++ (if q m then [m] else []) := by
  rw [List.range_succ, List.filter_append]
  congr 1
  by_cases h : q m
  · simp [h]
  · simp [h]

/-- Peeling the first stride hit: when `p + N - 1` is in range, it is the
first index emitted from bookkeeping position `p`, and the rest are the
hits from position `p + N`. -/
theorem strideIdx_cons (M N p : Nat) (hN : 1 ≤ N) (hM : p + N - 1 < M) :
    strideIdx M N p = (p + N - 1) :: strideIdx M N (p + N) := by
  induction M with
  | zero => omega
  | succ m ih =>
    have hs1 : strideIdx (m + 1) N p
        = strideIdx m N p ++ (if (p ≤ m ∧ (m + 1 - p) % N = 0) then [m] else []) :=
      filter_range_succ _ m
    have hs2 : strideIdx (m + 1) N (p + N)
        = strideIdx m N (p + N)
          ++ (if (p + N ≤ m ∧ (m + 1 - (p + N)) % N = 0) then [m] else []) :=
      filter_range_succ _ m
    by_cases hm : p + N - 1 < m
    · have hiff : (p ≤ m ∧ (m + 1 - p) % N = 0)
          ↔ (p + N ≤ m ∧ (m + 1 - (p + N)) % N = 0) := by
        have hmod : (m + 1 - p) % N = (m + 1 - (p + N)) % N := by
          have hge : m + 1 - p ≥ N := by omega
          rw [Nat.mod_eq_sub_mod hge]
          congr 1
          omega
        constructor
        · rintro ⟨h1, h2⟩
          exact ⟨by omega, by rw [← hmod]; exact h2⟩
        · rintro ⟨h1, h2⟩
          exact ⟨by omega, by rw [hmod]; exact h2⟩
      have hifeq : (if (p ≤ m ∧ (m + 1 - p) % N = 0) then [m] else ([] : List Nat))
          = (if (p + N ≤ m ∧ (m + 1 - (p + N)) % N = 0) then [m] else []) :=
        if_congr hiff rfl rfl
      rw [hs1, hs2, ih hm, hifeq, List.cons_append]
    · have hm' : p + N - 1 = m := by omega
      have hpos : p ≤ m ∧ (m + 1 - p) % N = 0 := by
        refine ⟨by omega, ?_⟩
        rw [show m + 1 - p = N from by omega]
        exact Nat.mod_self N
      rw [hs1, strideIdx_nil m N p hN (by omega), if_pos hpos,
        strideIdx_nil (m + 1) N (p + N) hN (by omega), List.nil_append, hm']

/-- The shard-assignment indices of worker `w < N` are the first in-range
index `w` followed by the stride hits from bookkeeping position `w + 1`. -/
theorem shardIdx_eq (M N w : Nat) (hN : 1 ≤ N) (hw : w < N) :
    shardIdx M N w = if w < M then w :: strideIdx M N (w + 1) else [] := by
  induction M with
  | zero =>
    rw [if_neg (by omega)]
    rfl
  | succ m ih =>
    have hs1 : shardIdx (m + 1) N w
        = shardIdx m N w ++ (if (m % N = w) then [m] else []) :=
      filter_range_succ _ m
    have hs2 : strideIdx (m + 1) N (w + 1)
        = strideIdx m N (w + 1)
          ++ (if (w + 1 ≤ m ∧ (m + 1 - (w + 1)) % N = 0) then [m] else []) :=
      filter_range_succ _ m
    rcases Nat.lt_trichotomy w m with hm | hm | hm
    · have hiff : (m % N = w) ↔ (w + 1 ≤ m ∧ (m + 1 - (w + 1)) % N = 0) := by
        have h1 := mod_eq_iff_sub_mod m N w hw (by omega)
        constructor
        · intro h
          refine ⟨by omega, ?_⟩
          rw [show m + 1 - (w + 1) = m - w from by omega]
          exact h1.mp h
        · rintro ⟨_, h2⟩
          apply h1.mpr
          rw [show m - w = m + 1 - (w + 1) from by omega]
          exact h2
      have hifeq : (if (m % N = w) then [m] else ([] : List Nat))
          = (if (w + 1 ≤ m ∧ (m + 1 - (w + 1)) % N = 0) then [m] else []) :=
        if_congr hiff rfl rfl
      rw [hs1, ih, if_pos hm, hifeq, hs2, if_pos (show w < m + 1 from by omega),
        List.cons_append]
    · subst hm
      have hmod : w % N = w := Nat.mod_eq_of_lt hw
      rw [hs1, ih, if_neg (lt_irrefl w), if_pos hmod, List.nil_append,
        if_pos (Nat.lt_succ_self w), strideIdx_nil (w + 1) N (w + 1) hN (by omega)]
    · have hmod : ¬ (m % N = w) := by
        have := Nat.mod_le m N
        omega
      rw [hs1, ih, if_neg (by omega), if_neg hmod, if_neg (by omega)]
      rfl

/-- One successful step of the drain loop. -/
theorem runIter_succ_ok (fuel : Nat) (it it' : PIter) (stream stream' : List SeqRecord)
    (s : Sequence) (h : it.next stream = .ok (s, it', stream')) :
    runIter (fuel + 1) it stream = s :: runIter fuel it' stream' := by
  conv_lhs => rw [runIter]
  rw [h]

/-- A failing step ends the drain loop. -/
theorem runIter_succ_err (fuel : Nat) (it : PIter) (stream : List SeqRecord)
    (e : PyError) (h : it.next stream = .error e) :
    runIter (fuel + 1) it stream = [] := by
  conv_lhs => rw [runIter]
  rw [h]

/-- `__next__` on a positioned iterator: skip `step` records, then fetch at
the advanced bookkeeping position. -/
theorem next_positioned (w p step : Nat) (stream : List SeqRecord) :
    PIter.next ⟨w, some p, step⟩ stream
      = PIter.fetch ⟨w, some p, step⟩ (stream.drop step) (p + step + 1) := rfl

/-- `__next__` on a freshly constructed iterator: skip `start` records, then
fetch at position `start + 1`. -/
theorem next_unpositioned (w step : Nat) (stream : List SeqRecord) :
    PIter.next ⟨w, none, step⟩ stream
      = PIter.fetch ⟨w, none, step⟩ (stream.drop w) (w + 1) := rfl

/-- Draining a positioned iterator whose stream is the drop of the full
record list at its bookkeeping position yields exactly the stride hits
predicted by `strideIdx`, each tagged via `mkSeq`. -/
theorem runIter_positioned (fuel : Nat) :
    ∀ (records : List SeqRecord) (N w p : Nat), 1 ≤ N →
      allEncodable records = true →
      records.length ≤ fuel + p →
      runIter fuel ⟨w, some p, N - 1⟩ (records.drop p)
        = (strideIdx records.length N p).map (fun i => mkSeq i (records.getD i dfltRec)) := by
  induction fuel with
  | zero =>
    intro records N w p hN henc hlen
    rw [strideIdx_nil records.length N p hN (by omega)]
    rfl
  | succ fuel ih =>
    intro records N w p hN henc hlen
    by_cases hq : p + N - 1 < records.length
    · have hdd : (records.drop p).drop (N - 1) = records.drop (p + N - 1) := by
        rw [List.drop_drop]
        congr 1
        omega
      have hcons : records.drop (p + N - 1)
          = records[p + N - 1] :: records.drop (p + N - 1 + 1) :=
        List.drop_eq_getElem_cons hq
      have henr : encodableRec records[p + N - 1] = true :=
        List.all_eq_true.mp henc _ (List.getElem_mem hq)
      have hnext : PIter.next ⟨w, some p, N - 1⟩ (records.drop p)
          = .ok (mkSeq (p + N - 1) records[p + N - 1],
                 ⟨w, some (p + N), N - 1⟩, records.drop (p + N)) := by
        rw [next_positioned, hdd, hcons, fetch_ok _ _ _ _ henr]
        simp only [mkSeq]
        rw [show p + (N - 1) + 1 = p + N from by omega,
          show p + N - 1 + 1 = p + N from by omega]
      rw [runIter_succ_ok _ _ _ _ _ _ hnext,
        ih records N w (p + N) hN henc (by omega),
        strideIdx_cons records.length N p hN hq, List.map_cons,
        List.getD_eq_getElem records dfltRec hq]
    · have hnil : (records.drop p).drop (N - 1) = [] := by
        rw [List.drop_drop]
        exact List.drop_eq_nil_of_le (by omega)
      have hnext : PIter.next ⟨w, some p, N - 1⟩ (records.drop p)
          = .error .stopIteration := by
        rw [next_positioned, hnil]
        rfl
      rw [runIter_succ_err _ _ _ _ hnext,
        strideIdx_nil records.length N p hN (by omega)]
      rfl

/-- The output of worker `w` of `N` over its own copy of the records is
exactly what the shard-assignment rule predicts. -/
theorem worker_emits (records : List SeqRecord) (N w : Nat) (hN : 1 ≤ N) (hw : w < N)
    (henc : allEncodable records = true) :
    emitted records N w = workerOutput records N w := by
  unfold emitted workerOutput PIter.init
  by_cases hwM : w < records.length
  · have hcons : records.drop w = records[w] :: records.drop (w + 1) :=
      List.drop_eq_getElem_cons hwM
    have henr : encodableRec records[w] = true :=
      List.all_eq_true.mp henc _ (List.getElem_mem hwM)
    have hnext : PIter.next ⟨w, none, N - 1⟩ records
        = .ok (mkSeq w records[w], ⟨w, some (w + 1), N - 1⟩, records.drop (w + 1)) := by
      have hdrop : records.drop 0 = records := List.drop_zero records
      rw [next_unpositioned]  -- hmm: stream.drop w with start = w: next_unpositioned gives stream.drop w
      rw [hcons, fetch_ok _ _ _ _ henr]
      simp only [mkSeq]
    rw [runIter_succ_ok _ _ _ _ _ _ hnext,
      runIter_positioned records.length records N w (w + 1) hN henc (by omega),
      shardIdx_eq records.length N w hN hw, if_pos hwM, List.map_cons,
      List.getD_eq_getElem records dfltRec hwM]
  · have hnil : records.drop w = [] := List.drop_eq_nil_of_le (by omega)
    have hnext : PIter.next ⟨w, none, N - 1⟩ records = .error .stopIteration := by
      rw [next_unpositioned, hnil]
      rfl
    rw [runIter_succ_err _ _ _ _ hnext,
      shardIdx_eq records.length N w hN hw, if_neg hwM]
    rfl

/-- Counting in the list of shard indices of worker `w`: the full count of
`range M` when `a` is assigned to `w`, zero otherwise. -/
theorem count_shardIdx (M N w a : Nat) :
    (shardIdx M N w).count a
      = if a % N = w then (List.range M).count a else 0 := by
  unfold shardIdx
  rw [count_filter_ite]
  by_cases h : a % N = w
  · simp [h]
  · simp [h]

/-- The shard index lists of the `N` workers partition `range M`: their
concatenation is a permutation of it. -/
theorem shard_partition (M N : Nat) (hN : 1 ≤ N) :
    (((List.range N).map (fun w => shardIdx M N w)).flatten).Perm (List.range M) := by
  rw [List.perm_iff_count]
  intro a
  rw [List.count_flatten, List.map_map]
  have hcongr : (List.range N).map (List.count a ∘ fun w => shardIdx M N w)
      = (List.range N).map (fun w => if a % N = w then (List.range M).count a else 0) :=
    List.map_congr_left (fun w _ => count_shardIdx M N w a)
  rw [hcongr, sum_indicator_range N (a % N) ((List.range M).count a),
    if_pos (Nat.mod_lt a (by omega))]

/-- The union of all workers' outputs is a permutation of the tagged full
record list. -/
theorem union_emitted_perm (records : List SeqRecord) (N : Nat) (hN : 1 ≤ N)
    (henc : allEncodable records = true) :
    (unionEmitted records N).Perm
      ((List.range records.length).map (fun i => mkSeq i (records.getD i dfltRec))) := by
  unfold unionEmitted
  have h1 : (List.range N).map (fun w => emitted records N w)
      = (List.range N).map (fun w =>
          (shardIdx records.length N w).map (fun i => mkSeq i (records.getD i dfltRec))) :=
    List.map_congr_left (fun w hw =>
      worker_emits records N w hN (List.mem_range.mp hw) henc)
  have h2 : (List.range N).map (fun w =>
        (shardIdx records.length N w).map (fun i => mkSeq i (records.getD i dfltRec)))
      = ((List.range N).map (fun w => shardIdx records.length N w)).map
          (List.map (fun i => mkSeq i (records.getD i dfltRec))) := by
    rw [List.map_map]
    rfl
  rw [h1, h2, ← List.map_flatten]
  exact (shard_partition records.length N hN).map _

/-- On a non-empty batch, `collate_sequences` returns the zero-padded rows
in batch order together with the ids in batch order. -/
theorem collate_eq (batch : List Sequence) (h : batch ≠ []) :
    collate_sequences batch true
      = .ok ⟨batch.map
              (fun s => s.encoded ++ List.replicate (maxLenOf batch - s.encoded.length) 0),
             batch.map (fun s => s.id)⟩ := by
  cases batch with
  | nil => exact absurd rfl h
  | cons b bs => rfl

/-- The only exception encoding can raise is a `KeyError`. -/
theorem encodeSeq_error_keyError (d : List (Char × Nat)) (s : List Char) (e : PyError)
    (h : encodeSeq d s = .error e) : ∃ c, e = .keyError c := by
  induction s generalizing e with
  | nil => simp [encodeSeq] at h
  | cons c cs ih =>
    cases hl : d.lookup c with
    | none =>
      simp only [encodeSeq, hl] at h
      exact ⟨c, (Except.error.injEq _ _).mp h.symm⟩
    | some v =>
      simp only [encodeSeq, hl] at h
      cases hr : encodeSeq d cs with
      | error e2 =>
        rw [hr] at h
        simp only [Except.map] at h
        obtain ⟨c2, hc2⟩ := ih e2 hr
        have he : e = e2 := (Except.error.injEq _ _).mp h.symm
        exact ⟨c2, by rw [he, hc2]⟩
      | ok l =>
        rw [hr] at h
        simp [Except.map] at h

/-- The fetch step never raises `NameError`. -/
theorem fetch_not_nameError (it : PIter) (stream : List SeqRecord) (newPos : Nat) :
    resultIsNameError (it.fetch stream newPos) = false := by
  cases stream with
  | nil => rfl
  | cons r rest =>
    cases hr : encodeSeq (genVocab r.alphabet) r.seq with
    | error e =>
      obtain ⟨c, hc⟩ := encodeSeq_error_keyError _ _ _ hr
      subst hc
      simp only [PIter.fetch, gen_amino_acid_vocab, hr]
      rfl
    | ok l => simp [PIter.fetch, gen_amino_acid_vocab, hr, resultIsNameError]

/-- Claim C4: on every non-empty batch, `collate_sequences` with zero
padding returns the identifier list in batch order and a matrix with one
row per record, each row of the batch's maximal encoded length, holding
the record's encoding in its leading columns and zero in all remaining
columns. -/
theorem c4_collate_shape (batch : List Sequence) (h : batch ≠ []) :
    ∃ m, collate_sequences batch true = .ok ⟨m, batch.map (fun s => s.id)⟩
      ∧ m.length = batch.length
      ∧ ∀ i, i < batch.length →
          (m.getD i []).length = maxLenOf batch
          ∧ (∀ j, j < (batch.getD i dfltSeq).encoded.length →
              (m.getD i []).getD j 0 = (batch.getD i dfltSeq).encoded.getD j 0)
          ∧ (∀ j, (batch.getD i dfltSeq).encoded.length ≤ j →
              (m.getD i []).getD j 0 = 0) := by
  refine ⟨_, collate_eq batch h, by rw [List.length_map], ?_⟩
  intro i hi
  have hiM : i < (batch.map
      (fun s => s.encoded ++ List.replicate (maxLenOf batch - s.encoded.length) 0)).length := by
    rw [List.length_map]
    exact hi
  have hrow : (batch.map
        (fun s => s.encoded ++ List.replicate (maxLenOf batch - s.encoded.length) 0)).getD i []
      = (batch.getD i dfltSeq).encoded
        ++ List.replicate (maxLenOf batch - (batch.getD i dfltSeq).encoded.length) 0 := by
    rw [List.getD_eq_getElem _ _ hiM, List.getElem_map, List.getD_eq_getElem _ _ hi]
  have hle : (batch.getD i dfltSeq).encoded.length ≤ maxLenOf batch := by
    apply le_maxLenOf
    rw [List.getD_eq_getElem _ _ hi]
    exact List.getElem_mem hi
  refine ⟨?_, ?_, ?_⟩
  · rw [hrow, List.length_append, List.length_replicate]
    omega
  · intro j hj
    rw [hrow, List.getD_append _ _ _ j hj]
  · intro j hj
    rw [hrow, List.getD_append_right _ _ _ j hj, getD_replicate_zero]

/-- Claim C4 witness: the specification's own example batch collates to the
matrix `[[1,2,3],[4,5,0]]` with ids in order, and instantiates the general
shape theorem. -/
theorem c4_collate_shape_witness :
    collate_sequences batchW true
      = .ok ⟨[[1, 2, 3], [4, 5, 0]], [ "id1", "id2"]⟩
    ∧ ∃ m, collate_sequences batchW true = .ok ⟨m, batchW.map (fun s => s.id)⟩
      ∧ m.length = batchW.length
      ∧ ∀ i, i < batchW.length →
          (m.getD i []).length = maxLenOf batchW
          ∧ (∀ j, j < (batchW.getD i dfltSeq).encoded.length →
              (m.getD i []).getD j 0 = (batchW.getD i dfltSeq).encoded.getD j 0)
          ∧ (∀ j, (batchW.getD i dfltSeq).encoded.length ≤ j →
              (m.getD i []).getD j 0 = 0) :=
  ⟨rfl, c4_collate_shape batchW (by decide)⟩

/-- Claim C5 counterexample: on the empty batch, `collate_sequences` fails,
but with the `IndexError` arising from `default_collate` reading the first
row of an empty array, not with the spec's `ConfigurationError` (which the
source never raises). -/
theorem c5_counterexample :
    collate_sequences [] true = .error PyError.indexError
    ∧ resultIsConfigurationError (collate_sequences [] true) = false :=
  ⟨rfl, rfl⟩

/-- Claim C5 as amended: calling `collate_sequences` on an empty batch
fails — it does not return a value — but the exception is an `IndexError`
raised inside `default_collate`, not a `ConfigurationError`. -/
theorem c5_amended_empty_batch :
    collate_sequences [] true = .error PyError.indexError := rfl

set_option maxRecDepth 10000 in
/-- Claim C6 counterexample: encoding a string with the out-of-vocabulary
character `1` fails with `KeyError('1')` — an error that names the
character but carries no position — not with the spec's
`UnknownSymbolError`. -/
theorem c6_counterexample :
    encodeSeq (genVocab extendedIUPACLetters) [ 'A', 'C', '1']
      = .error (.keyError '1')
    ∧ resultIsUnknownSymbolError
        (encodeSeq (genVocab extendedIUPACLetters) [ 'A', 'C', '1']) = false :=
  ⟨rfl, rfl⟩

/-- Claim C6 as amended: encoding a string containing a character absent
from the vocabulary fails with a `KeyError` that names an offending,
absent character of the string; no position information accompanies it. -/
theorem c6_amended_unknown_symbol (d : List (Char × Nat)) (s : List Char)
    (h : s.any (fun c => (d.lookup c).isNone) = true) :
    ∃ c, encodeSeq d s = .error (.keyError c) ∧ d.lookup c = none ∧ c ∈ s := by
  induction s with
  | nil => simp at h
  | cons c cs ih =>
    by_cases hc : d.lookup c = none
    · exact ⟨c, by simp [encodeSeq, hc], hc, List.mem_cons_self c cs⟩
    · obtain ⟨v, hv⟩ := Option.ne_none_iff_exists'.mp hc
      have hcs : cs.any (fun c => (d.lookup c).isNone) = true := by
        rw [List.any_cons] at h
        rw [hv] at h
        simpa using h
      obtain ⟨c2, hc2, hl2, hm2⟩ := ih hcs
      refine ⟨c2, ?_, hl2, List.mem_cons_of_mem c hm2⟩
      simp only [encodeSeq, hv, hc2, Except.map]

/-- Claim C6 witness: the amended statement at a concrete vocabulary and
string with an out-of-vocabulary character. -/
theorem c6_amended_unknown_symbol_witness :
    ∃ c, encodeSeq (genVocab alphaW) [ 'A', 'B'] = .error (.keyError c)
      ∧ (genVocab alphaW).lookup c = none ∧ c ∈ [ 'A', 'B'] :=
  c6_amended_unknown_symbol (genVocab alphaW) [ 'A', 'B'] (by decide)

/-- Claim C7 counterexample: the vocabulary builder on an empty alphabet
returns the empty mapping; it raises nothing, in particular not the spec's
`ConfigurationError`. -/
theorem c7_counterexample :
    gen_amino_acid_vocab [] = .ok []
    ∧ resultIsConfigurationError (gen_amino_acid_vocab []) = false :=
  ⟨rfl, rfl⟩

/-- Claim C7 as amended: calling `gen_amino_acid_vocab` with an empty
alphabet returns an empty mapping rather than raising. -/
theorem c7_amended_empty_alphabet : gen_amino_acid_vocab [] = .ok [] := rfl

/-- Claim C8 as amended: constructing a `ProteinDataset` on a path that is
not a regular existing file fails at construction time — but with
`ValueError`, not the spec's `NotFoundError` — and construction on an
existing regular file does not raise, storing the parsed stream. -/
theorem c8_amended_dataset_init (fs : FileSystem) (file f_format : String)
    (max_length : Option Nat) (zero_padding : Bool) :
    (fs.isFile file = false →
      ProteinDataset.init fs file f_format max_length zero_padding
        = .error (.valueError datasetFileMsg))
    ∧ (fs.isFile file = true →
      ProteinDataset.init fs file f_format max_length zero_padding
        = .ok ⟨(fs.parseRecords file f_format).map
            (fun r => { r with alphabet := extendedIUPACLetters })⟩) := by
  constructor
  · intro h
    simp [ProteinDataset.init, h]
  · intro h
    simp [ProteinDataset.init, h]

/-- Claim C8 counterexample: on a file system where the path is not a
regular file, construction raises `ValueError`, not `NotFoundError`. -/
theorem c8_counterexample :
    ProteinDataset.init fsMissing "queries.fasta" "fasta" none true
      = .error (.valueError datasetFileMsg)
    ∧ resultIsNotFoundError
        (ProteinDataset.init fsMissing "queries.fasta" "fasta" none true) = false :=
  ⟨rfl, rfl⟩

/-- Claim C8 witness: the amended statement at a missing-file system and at
a present-file system. -/
theorem c8_amended_dataset_init_witness :
    ProteinDataset.init fsMissing "queries.fasta" "fasta" none true
      = .error (.valueError datasetFileMsg)
    ∧ ProteinDataset.init fsTwoRecords "queries.fasta" "fasta" none true
      = .ok ⟨(fsTwoRecords.parseRecords "queries.fasta" "fasta").map
          (fun r => { r with alphabet := extendedIUPACLetters })⟩ :=
  ⟨(c8_amended_dataset_init fsMissing "queries.fasta" "fasta" none true).1 rfl,
   (c8_amended_dataset_init fsTwoRecords "queries.fasta" "fasta" none true).2 rfl⟩

/-- Claim C9: the constructor parameters `max_length` and `zero_padding`
are accepted but never stored or read, so two datasets over the same file
and format differing only in them are identical, and every iterator drawn
from them produces identical output. -/
theorem c9_unused_params (fs : FileSystem) (file f_format : String)
    (ml1 ml2 : Option Nat) (zp1 zp2 : Bool) :
    ProteinDataset.init fs file f_format ml1 zp1
      = ProteinDataset.init fs file f_format ml2 zp2
    ∧ ∀ (workerInfo : Option (Nat × Nat)) (fuel : Nat) (st1 st2 : PDState),
        ProteinDataset.init fs file f_format ml1 zp1 = .ok st1 →
        ProteinDataset.init fs file f_format ml2 zp2 = .ok st2 →
        runIter fuel (ProteinDataset.iterOf workerInfo) st1.iter
          = runIter fuel (ProteinDataset.iterOf workerInfo) st2.iter := by
  refine ⟨rfl, ?_⟩
  intro wi fuel st1 st2 h1 h2
  have heq : ProteinDataset.init fs file f_format ml1 zp1
      = ProteinDataset.init fs file f_format ml2 zp2 := rfl
  rw [heq, h2] at h1
  injection h1 with h3
  rw [h3]

/-- Claim C9 witness: the hyperproperty instantiated at a concrete file
system with differing `max_length` and `zero_padding` values. -/
theorem c9_unused_params_witness :
    runIter 3 (ProteinDataset.iterOf none) pdStateW.iter
      = runIter 3 (ProteinDataset.iterOf none) pdStateW.iter :=
  (c9_unused_params fsTwoRecords "queries.fasta" "fasta" none (some 1) true false).2
    none 3 pdStateW pdStateW rfl rfl

/-- Claim C10: `ProteinIterator.__next__` always passes an integer to
`consume` (`worker_id` on the first call, `num_workers - 1` afterwards),
so the `n = None` branch — which would raise `NameError` for the unbound
name `collections` — is unreachable: no call of `__next__` ever raises
`NameError`, while `consume` with `None` would. -/
theorem c10_consume_none_unreachable (it : PIter) (stream : List SeqRecord) :
    consume stream none = .error (.nameError collectionsModuleName)
    ∧ resultIsNameError (it.next stream) = false := by
  refine ⟨rfl, ?_⟩
  cases hpos : it.pos with
  | some p =>
    have hstep : it.next stream = it.fetch (stream.drop it.step) (p + it.step + 1) := by
      unfold PIter.next
      rw [hpos]
      rfl
    rw [hstep]
    exact fetch_not_nameError it _ _
  | none =>
    have hstep : it.next stream = it.fetch (stream.drop it.start) (it.start + 1) := by
      unfold PIter.next
      rw [hpos]
      rfl
    rw [hstep]
    exact fetch_not_nameError it _ _

/-- Claim C1: for every `num_workers = N ≥ 1` and every (encodable) record
source, with one `ProteinIterator` per `worker_id` in `[0, N)` each over
its own copy of the source, worker `w` emits exactly the records at
0-based indices `i` with `i % N = w` (1-based positions `p` with
`(p - 1) % N = w`), each tagged `"{p}_{native id}"`; hence the
concatenation over all workers is a permutation of the full tagged record
list — no duplicate, no gap. -/
theorem c1_sharded_union_and_assignment (records : List SeqRecord) (N : Nat)
    (hN : 1 ≤ N) (henc : allEncodable records = true) :
    (∀ w, w < N → emitted records N w = workerOutput records N w)
    ∧ (unionEmitted records N).Perm
        ((List.range records.length).map (fun i => mkSeq i (records.getD i dfltRec))) :=
  ⟨fun w hw => worker_emits records N w hN hw henc,
   union_emitted_perm records N hN henc⟩

/-- Claim C1 witness: the sharding theorem at three concrete records and
two workers, with the emitted id lists checked explicitly. -/
theorem c1_sharded_union_and_assignment_witness :
    (1 ≤ 2 ∧ allEncodable recsW1 = true)
    ∧ emitted recsW1 2 1 = workerOutput recsW1 2 1
    ∧ (unionEmitted recsW1 2).Perm
        ((List.range recsW1.length).map (fun i => mkSeq i (recsW1.getD i dfltRec)))
    ∧ (emitted recsW1 2 0).map (fun s => s.id) = [ "1_r1", "3_r3"]
    ∧ (emitted recsW1 2 1).map (fun s => s.id) = [ "2_r2"] :=
  ⟨⟨by decide, by decide⟩,
   (c1_sharded_union_and_assignment recsW1 2 (by decide) (by decide)).1 1 (by decide),
   (c1_sharded_union_and_assignment recsW1 2 (by decide) (by decide)).2,
   by decide, by decide⟩

/-- Claim C2: with no worker context, `ProteinDataset.__iter__` builds the
iterator with the constructor defaults `num_workers = 1, worker_id = 0`,
and that iterator emits every record of the source in sequential order,
the record at 0-based index `i` (1-based rank `i + 1`) tagged
`"{i+1}_{native id}"`. -/
theorem c2_default_sequential (records : List SeqRecord)
    (henc : allEncodable records = true) :
    ProteinDataset.iterOf none = PIter.init 1 0
    ∧ emitted records 1 0
        = (List.range records.length).map (fun i => mkSeq i (records.getD i dfltRec)) := by
  refine ⟨rfl, ?_⟩
  rw [worker_emits records 1 0 (le_refl 1) (by omega) henc]
  unfold workerOutput
  have hall : shardIdx records.length 1 0 = List.range records.length := by
    unfold shardIdx
    apply List.filter_eq_self.mpr
    intro a _
    simp [Nat.mod_one]
  rw [hall]

/-- Claim C2 witness: the degenerate sequential case at two concrete
records, with the emitted id list checked explicitly. -/
theorem c2_default_sequential_witness :
    allEncodable recsW2 = true
    ∧ emitted recsW2 1 0
        = (List.range recsW2.length).map (fun i => mkSeq i (recsW2.getD i dfltRec))
    ∧ (emitted recsW2 1 0).map (fun s => s.id) = [ "1_a", "2_b"] :=
  ⟨by decide, (c2_default_sequential recsW2 (by decide)).2, by decide⟩

set_option maxRecDepth 10000 in
/-- Claim C3 counterexample: a `ProteinDataset` over a two-record file
shares its single parsed stream among all iterators returned by
`__iter__`.  After one record is consumed through a first iterator, a
second iterator's first delivery is the second record of the file (tagged
`"1_b"`), not the first record (`"1_a"`) that a newly-opened read
position would deliver: the two iterators interfere. -/
theorem c3_counterexample :
    c3FirstIds = (some "1_a", some "1_b")
    ∧ (some "1_b" : Option String) ≠ some "1_a" := by
  constructor
  · decide
  · decide

/-- Claim C3 as amended: each `__iter__` call returns a fresh
`ProteinIterator` wrapper (default coordinates, unpositioned), but every
wrapper is bound to the dataset's single stored stream, not to a
newly-opened read position: consuming the head record through one
iterator leaves the shared stream advanced, and a second iterator then
delivers the next record of the file while restarting its position prefix
at 1, so iterators obtained from the same dataset interfere. -/
theorem c3_shared_stream (r1 r2 : SeqRecord) (rest : List SeqRecord)
    (h1 : encodableRec r1 = true) (h2 : encodableRec r2 = true) :
    PIter.next (ProteinDataset.iterOf none) (r1 :: r2 :: rest)
      = .ok (mkSeq 0 r1, ⟨0, some 1, 0⟩, r2 :: rest)
    ∧ PIter.next (ProteinDataset.iterOf none) (r2 :: rest)
      = .ok (mkSeq 0 r2, ⟨0, some 1, 0⟩, rest) := by
  constructor
  · show PIter.next ⟨0, none, 0⟩ (r1 :: r2 :: rest) = _
    rw [next_unpositioned, List.drop_zero, fetch_ok _ _ _ _ h1]
    rfl
  · show PIter.next ⟨0, none, 0⟩ (r2 :: rest) = _
    rw [next_unpositioned, List.drop_zero, fetch_ok _ _ _ _ h2]
    rfl

/-- Claim C3 witness: the shared-stream behaviour at two concrete
records. -/
theorem c3_shared_stream_witness :
    (encodableRec recA = true ∧ encodableRec recB = true)
    ∧ PIter.next (ProteinDataset.iterOf none) (recA :: recB :: [])
        = .ok (mkSeq 0 recA, ⟨0, some 1, 0⟩, recB :: [])
    ∧ PIter.next (ProteinDataset.iterOf none) (recB :: [])
        = .ok (mkSeq 0 recB, ⟨0, some 1, 0⟩, []) :=
  ⟨⟨by decide, by decide⟩,
   (c3_shared_stream recA recB [] (by decide) (by decide)).1,
   (c3_shared_stream recA recB [] (by decide) (by decide)).2⟩
